import Mathlib

/-!
# NetFS: the wire protocol between the client handlers and the server executor

A shallow embedding of `netfs_client.c` (`send_path`, `netfs_getattr`,
`netfs_readdir`, `netfs_open`, `netfs_read`) and of `netfs_server.c`
(`handle_request`), over an explicit model of one TCP connection.

Conventions of the embedding.

* A byte stream is a `List Byte`.  Fixed-width integers travel in their object
  representation; the byte order of the host is the field `bigEndian` of
  `Platform`.  The data model is LP64: `off_t`, `size_t`, `uint64_t` take 8 bytes,
  `uint16_t` takes 2, `int` is 32 bits wide.
* A C string argument is a `List Byte` holding the memory the pointer designates;
  the string itself is the part before the first zero byte (`c_str`).
* Every call of a transport primitive is recorded, in order, in the `trace` of
  the connection state `Sock`; the outcome of each call is read off an oracle
  (`Net`), so that every combination of successes and failures can be explored.
* The character buffers of size `LARGEST_PATH` (declared in `common.h`) are taken
  to be large enough for the strings stored into them.
-/

namespace NetFS

abbrev Byte := UInt8

/-! ## Integers in object representation -/

/-- The `w` low-order bytes of `v`, least significant byte first. -/
def encLE : Nat → Nat → List Byte
  | 0, _ => []
  | w + 1, v => UInt8.ofNat (v % 256) :: encLE w (v / 256)

/-- Value of a byte string read least significant byte first. -/
def decLE : List Byte → Nat
  | [] => 0
  | b :: bs => b.toNat + 256 * decLE bs

/-- Object representation of the `w`-byte unsigned integer `v mod 256^w`. -/
def encode (be : Bool) (w v : Nat) : List Byte :=
  if be then (encLE w v).reverse else encLE w v

/-- Unsigned value held by an object representation. -/
def decode (be : Bool) (bs : List Byte) : Nat :=
  if be then decLE bs.reverse else decLE bs

/-- The 64-bit pattern of a signed value (also its conversion to `size_t`). -/
def ofInt64 (i : Int) : Nat := (i % 2 ^ 64).toNat

/-- The signed value (`off_t`) of a 64-bit pattern. -/
def toInt64 (u : Nat) : Int :=
  if u % 2 ^ 64 < 2 ^ 63 then ((u % 2 ^ 64 : Nat) : Int) else ((u % 2 ^ 64 : Nat) : Int) - 2 ^ 64

/-- Conversion of an unsigned value to `int`, as performed by `return size;`. -/
def toInt32 (u : Nat) : Int :=
  if u % 2 ^ 32 < 2 ^ 31 then ((u % 2 ^ 32 : Nat) : Int) else ((u % 2 ^ 32 : Nat) : Int) - 2 ^ 32

/-! ## C strings -/

/-- The string designated by a `char *`: the bytes before the first zero byte. -/
def c_str (p : List Byte) : List Byte := p.takeWhile (fun b => b != 0)

/-- The C library function `strlen`. -/
def strlen (p : List Byte) : Nat := (c_str p).length

/-- Storing `bs` at the start of a character buffer whose content was `old`. -/
def store (old bs : List Byte) : List Byte := bs ++ old.drop bs.length

/-! ## Constants of `net.h`, `fcntl.h`, `sys/stat.h`, `errno.h` -/

def MSG_READDIR : Nat := 1
def MSG_GETATTR : Nat := 2
def MSG_OPEN : Nat := 3
def MSG_READ : Nat := 4

def O_RDONLY : Nat := 0
def O_WRONLY : Nat := 1
def O_RDWR : Nat := 2
def O_ACCMODE : Nat := 3
def S_IFDIR : Nat := 0o040000
def EACCES : Int := 13

/-- Size of `struct netfs_msg_header`, which is packed: 8 + 2 bytes. -/
def sizeof_header : Nat := 10

/-! ## The attributes snapshot `struct stat` -/

structure Stat where
  st_dev : Nat
  st_ino : Nat
  st_nlink : Nat
  st_mode : Nat
  st_uid : Nat
  st_gid : Nat
  st_rdev : Nat
  st_size : Int
  st_blksize : Nat
  st_blocks : Nat
  st_atime : Nat
  st_atime_nsec : Nat
  st_mtime : Nat
  st_mtime_nsec : Nat
  st_ctime : Nat
  st_ctime_nsec : Nat
deriving DecidableEq, Repr

/-- The snapshot after `memset(stbuf, 0, sizeof(struct stat))`. -/
def Stat.zero : Stat := ⟨0, 0, 0, 0, 0, 0, 0, 0, 0, 0, 0, 0, 0, 0, 0, 0⟩

/-- What the C sources leave to the platform: the byte order and the native
layout of `struct stat`, which is sent over the wire as it lies in memory. -/
structure Platform where
  bigEndian : Bool
  sizeof_stat : Nat
  stat_bytes : Stat → List Byte
  stat_of_bytes : List Byte → Stat

/-- Slice `[off, off + w)` of a byte block. -/
def field (bs : List Byte) (off w : Nat) : List Byte := (bs.drop off).take w

/-- The layout of `struct stat` on Linux x86-64 (144 bytes, little endian). -/
def linux_x86_64 : Platform where
  bigEndian := false
  sizeof_stat := 144
  stat_bytes := fun st =>
    encLE 8 st.st_dev ++ encLE 8 st.st_ino ++ encLE 8 st.st_nlink ++ encLE 4 st.st_mode ++
    encLE 4 st.st_uid ++ encLE 4 st.st_gid ++ encLE 4 0 ++ encLE 8 st.st_rdev ++
    encLE 8 (ofInt64 st.st_size) ++ encLE 8 st.st_blksize ++ encLE 8 st.st_blocks ++
    encLE 8 st.st_atime ++ encLE 8 st.st_atime_nsec ++ encLE 8 st.st_mtime ++
    encLE 8 st.st_mtime_nsec ++ encLE 8 st.st_ctime ++ encLE 8 st.st_ctime_nsec ++ encLE 24 0
  stat_of_bytes := fun bs =>
    { st_dev := decLE (field bs 0 8), st_ino := decLE (field bs 8 8),
      st_nlink := decLE (field bs 16 8), st_mode := decLE (field bs 24 4),
      st_uid := decLE (field bs 28 4), st_gid := decLE (field bs 32 4),
      st_rdev := decLE (field bs 40 8), st_size := toInt64 (decLE (field bs 48 8)),
      st_blksize := decLE (field bs 56 8), st_blocks := decLE (field bs 64 8),
      st_atime := decLE (field bs 72 8), st_atime_nsec := decLE (field bs 80 8),
      st_mtime := decLE (field bs 88 8), st_mtime_nsec := decLE (field bs 96 8),
      st_ctime := decLE (field bs 104 8), st_ctime_nsec := decLE (field bs 112 8) }

/-! ## Transport primitives -/

/-- One call of a transport primitive, as seen from one end of a connection. -/
inductive Action
  | connect
  | send (bytes : List Byte)
  | recv (count : Nat)
  | sendfile (bytes : List Byte)
  | close
deriving DecidableEq, Repr

/-- The environment of one end of a connection: whether `connect_to` succeeds,
whether the k-th call of `write_len` and of `read_len` succeeds, and the peer,
given as the byte stream it answers with after having received a byte stream. -/
structure Net where
  connect_ok : Bool
  write_ok : Nat → Bool
  read_ok : Nat → Bool
  peer : List Byte → List Byte

/-- State of one end of a connection: the bytes written so far, the number of
incoming bytes consumed, the number of `write_len` and `read_len` calls made, and
the calls made so far. -/
structure Sock where
  sent : List Byte
  consumed : Nat
  writes : Nat
  reads : Nat
  trace : List Action
deriving DecidableEq, Repr

/-- A descriptor on which nothing has happened yet. -/
def Sock.init : Sock := ⟨[], 0, 0, 0, []⟩

/-- Number of `close` calls made on the connection. -/
def Sock.closes (s : Sock) : Nat := s.trace.count Action.close

/-- The system call `close`. -/
def close (s : Sock) : Sock := { s with trace := s.trace ++ [Action.close] }

/-- Modelled from the spec: `connect_to` of `net.c` (only declared in `net.h`),
"opens a new TCP connection; returns a ready, connected handle or a failure
indicator. No retry, no timeout — a single attempt". The result is whether a
handle was obtained. -/
def connect_to (net : Net) : Bool × Sock :=
  (net.connect_ok, { Sock.init with trace := [Action.connect] })

/-- Modelled from the spec: `write_len` of `net.c` (only declared in `net.h`),
"writes exactly `length` bytes ... until the whole buffer is sent or the
connection fails. Returns failure if the connection closes or errors mid-write".
`buf` is the `length` bytes handed over; the result is `true` on success and
`false` for the return value -1. -/
def write_len (net : Net) (s : Sock) (buf : List Byte) : Bool × Sock :=
  if net.write_ok s.writes then
    (true, { s with sent := s.sent ++ buf, writes := s.writes + 1,
                    trace := s.trace ++ [Action.send buf] })
  else
    (false, { s with writes := s.writes + 1, trace := s.trace ++ [Action.send buf] })

/-- The incoming bytes not yet consumed. -/
def pending (net : Net) (s : Sock) : List Byte := (net.peer s.sent).drop s.consumed

/-- Modelled from the spec: `read_len` of `net.c` (only declared in `net.h`),
"reads exactly `length` bytes ..., returning failure on end-of-stream before
`length` bytes arrive or on error". The result is the block read, or `none` for
the return value -1. -/
def read_len (net : Net) (s : Sock) (length : Nat) : Option (List Byte) × Sock :=
  if net.read_ok s.reads && decide (length ≤ (pending net s).length) then
    (some ((pending net s).take length),
      { s with consumed := s.consumed + length, reads := s.reads + 1,
               trace := s.trace ++ [Action.recv length] })
  else
    (none, { s with reads := s.reads + 1, trace := s.trace ++ [Action.recv length] })

/-! ## The client: `netfs_client.c` -/

/-- Result of a handler: its return value, the final state of its connection and
what it stored through its output argument. -/
structure Run (α : Type) where
  ret : Int
  sock : Sock
  out : α

/-- The function `send_path`: header, then path with its terminator. On a failed
write it closes the descriptor itself and returns -1. -/
def send_path (P : Platform) (net : Net) (type : Nat) (s : Sock) (path : List Byte) :
    Int × Sock :=
  let msg_len := strlen path + 1
  let req_header := encode P.bigEndian 8 msg_len ++ encode P.bigEndian 2 type
  let w1 := write_len net s req_header
  if w1.1 = false then (-1, close w1.2)
  else
    let w2 := write_len net w1.2 ((c_str path ++ [0]).take msg_len)
    if w2.1 = false then (-1, close w2.2)
    else (0, w2.2)

/-- The handler `netfs_getattr`; `out` is the caller's `stbuf`. -/
def netfs_getattr (P : Platform) (net : Net) (path : List Byte) : Run Stat :=
  let c := connect_to net
  if c.1 = false then ⟨-1, c.2, Stat.zero⟩
  else
    let sp := send_path P net MSG_GETATTR c.2 path
    if sp.1 = -1 then ⟨-1, close sp.2, Stat.zero⟩
    else
      match read_len net sp.2 P.sizeof_stat with
      | (none, s) => ⟨-1, close s, Stat.zero⟩
      | (some bs, s) =>
        let stbuf := P.stat_of_bytes bs
        if c_str path = [47] then
          ⟨0, s, { stbuf with st_mode := S_IFDIR ||| 0o755 }⟩
        else
          ⟨0, s, stbuf⟩

/-- The `do ... while (reply_len > 0)` loop of `netfs_readdir`. `reply` is the
content of the buffer `reply`, `emitted` the names handed to `filler` so far.
The result is `none` when the iteration budget `fuel` is used up. -/
def readdir_loop (P : Platform) (net : Net) :
    Nat → Sock → List Byte → List (List Byte) → Option (Run (List (List Byte)))
  | 0, _, _, _ => none
  | fuel + 1, s, reply, emitted =>
    match read_len net s 2 with
    | (none, s1) => some ⟨-1, close s1, emitted⟩
    | (some lb, s1) =>
      let reply_len := decode P.bigEndian lb
      match read_len net s1 reply_len with
      | (none, s2) => some ⟨-1, close s2, emitted⟩
      | (some name, s2) =>
        let reply1 := store reply name
        let emitted1 := emitted ++ [c_str reply1]
        if reply_len > 0 then readdir_loop P net fuel s2 reply1 emitted1
        else some ⟨0, close s2, emitted1⟩

/-- The handler `netfs_readdir`; `out` lists the names passed to `filler`, in
order. Every iteration consumes at least the two bytes of a length field, so
the loop is given one iteration more than there are incoming bytes. -/
def netfs_readdir (P : Platform) (net : Net) (path : List Byte) :
    Option (Run (List (List Byte))) :=
  let c := connect_to net
  if c.1 = false then some ⟨-1, c.2, []⟩
  else
    let sp := send_path P net MSG_READDIR c.2 path
    if sp.1 = -1 then some ⟨-1, close sp.2, []⟩
    else readdir_loop P net ((pending net sp.2).length + 1) sp.2 [] []

/-- The handler `netfs_open`; `flags` is `fi->flags`. -/
def netfs_open (P : Platform) (net : Net) (path : List Byte) (flags : Nat) : Run Unit :=
  if flags &&& O_ACCMODE ≠ O_RDONLY then ⟨-EACCES, Sock.init, ()⟩
  else
    let c := connect_to net
    if c.1 = false then ⟨-1, c.2, ()⟩
    else
      let sp := send_path P net MSG_OPEN c.2 path
      if sp.1 = -1 then ⟨-1, close sp.2, ()⟩
      else
        match read_len net sp.2 2 with
        | (none, s) => ⟨-1, close s, ()⟩
        | (some rb, s) =>
          let response := decode P.bigEndian rb
          let res : Int := if response ≠ 1 then -1 else 0
          ⟨res, close s, ()⟩

/-- The handler `netfs_read`; `out` is what was stored into the caller's `buf`.
The length read off the wire is an `off_t`; passing it to `read_len` converts it
to `size_t`. The return value is `size` converted to `int`. -/
def netfs_read (P : Platform) (net : Net) (path : List Byte) (size : Nat) (offset : Int) :
    Run (List Byte) :=
  let c := connect_to net
  if c.1 = false then ⟨-1, c.2, []⟩
  else
    let sp := send_path P net MSG_READ c.2 path
    if sp.1 = -1 then ⟨-1, close sp.2, []⟩
    else
      let w1 := write_len net sp.2 (encode P.bigEndian 8 (ofInt64 offset))
      if w1.1 = false then ⟨-1, close w1.2, []⟩
      else
        let w2 := write_len net w1.2 (encode P.bigEndian 8 size)
        if w2.1 = false then ⟨-1, close w2.2, []⟩
        else
          match read_len net w2.2 8 with
          | (none, s) => ⟨-1, close s, []⟩
          | (some lb, s) =>
            let len := toInt64 (decode P.bigEndian lb)
            match read_len net s (ofInt64 len) with
            | (none, s1) => ⟨-1, close s1, []⟩
            | (some data, s1) => ⟨toInt32 size, close s1, data⟩

/-! ## The server: `netfs_server.c` -/

/-- An object of the served directory tree, as the system calls see it: a
regular file with its attributes, the access the server process is granted and
its content; or a directory with its attributes, whether it may be read, and the
names its iteration yields, in iteration order. -/
inductive Node
  | file (attrs : Stat) (readable writable : Bool) (content : List Byte)
  | dir (attrs : Stat) (readable : Bool) (entries : List (List Byte))
deriving DecidableEq

/-- The environment of one execution context of the server: the outcomes of its
`write_len` and `read_len` calls and of `sendfile`, the directory tree (by path
name, relative to the working directory), and the 8-byte words that lie in the
memory of the process around the field `st_size` of `statbuf` (`around k` is the
word `k` slots of `off_t` after it, read as a signed value). -/
structure Host where
  write_ok : Nat → Bool
  read_ok : Nat → Bool
  sendfile_ok : Bool
  lookup : List Byte → Option Node
  around : Int → Int

/-- The connection of an execution context whose client has sent `request`. -/
def Host.net (h : Host) (request : List Byte) : Net :=
  ⟨true, h.write_ok, h.read_ok, fun _ => request⟩

/-- The library call `opendir` followed by the iteration with `readdir`: the
entry names, when the path names a directory that may be read. -/
def Host.opendir (h : Host) (path : List Byte) : Option (List (List Byte)) :=
  match h.lookup path with
  | some (Node.dir _ true entries) => some entries
  | _ => none

/-- The system call `stat`: the attributes of an existing object; the size of a
regular file is the length of its content. -/
def Host.stat (h : Host) (path : List Byte) : Option Stat :=
  match h.lookup path with
  | some (Node.file attrs _ _ content) => some { attrs with st_size := (content.length : Int) }
  | some (Node.dir attrs _ _) => some attrs
  | none => none

/-- The system call `open` on a path with an access mode: it yields the content
behind the descriptor when the object exists and grants the access asked for; a
directory can only be opened read-only. -/
def Host.open_file (h : Host) (path : List Byte) (flags : Nat) : Option (List Byte) :=
  match h.lookup path with
  | some (Node.file _ readable writable content) =>
    if flags &&& O_ACCMODE = O_RDONLY then (if readable then some content else none)
    else if flags &&& O_ACCMODE = O_WRONLY then (if writable then some content else none)
    else if flags &&& O_ACCMODE = O_RDWR then (if readable && writable then some content else none)
    else none
  | some (Node.dir _ readable _) =>
    if flags &&& O_ACCMODE = O_RDONLY && readable then some [] else none
  | none => none

/-- The most one call of `read`, `write` or `sendfile` transfers on Linux
(`MAX_RW_COUNT`, that is `INT_MAX` rounded down to a page): 0x7ffff000 bytes. -/
def MAX_RW_COUNT : Nat := 0x7ffff000

/-- The system call `sendfile(out_fd, in_fd, &offset, count)`, called once: it
copies the bytes of the file from position `offset` on to the connection, `count`
of them at most and never more than `MAX_RW_COUNT` in one call (nothing when
`offset` lies at or beyond the end of the file); a negative offset is an error,
as is a failure of the connection. The server makes one call and does not look
at the number of bytes transferred. -/
def sendfile (h : Host) (s : Sock) (content : List Byte) (offset : Int) (count : Nat) :
    Bool × Sock :=
  if h.sendfile_ok && decide (0 ≤ offset) then
    let bytes := (content.drop offset.toNat).take (min count MAX_RW_COUNT)
    (true, { s with sent := s.sent ++ bytes, trace := s.trace ++ [Action.sendfile bytes] })
  else
    (false, { s with trace := s.trace ++ [Action.sendfile []] })

/-- The object `*(&statbuf.st_size - offset)`: the operand of `-` is the address
of the field, so the subtraction moves the pointer back by `offset` slots of
`off_t`. With `offset = 0` it designates `st_size`; otherwise it designates the
memory `offset` slots before it. -/
def deref_st_size_minus (h : Host) (statbuf : Stat) (offset : Int) : Int :=
  if offset = 0 then statbuf.st_size else h.around (-offset)

/-- The loop `while ((entry = readdir(directory)) != NULL)` of the `MSG_READDIR`
branch: one length field and one name, terminator included, per entry. The
result is `false` when a write failed. -/
def send_entries (P : Platform) (net : Net) : List (List Byte) → Sock → Bool × Sock
  | [], s => (true, s)
  | d_name :: rest, s =>
    let len := (strlen d_name + 1) % 2 ^ 16
    let w1 := write_len net s (encode P.bigEndian 2 len)
    if w1.1 = false then (false, w1.2)
    else
      let w2 := write_len net w1.2 ((c_str d_name ++ [0]).take len)
      if w2.1 = false then (false, w2.2)
      else send_entries P net rest w2.2

/-- The function `handle_request`, run on the accepted connection of a client
that has sent `request`. The result is the final state of the connection; its
field `sent` is the response. -/
def handle_request (P : Platform) (h : Host) (request : List Byte) : Sock :=
  let net := h.net request
  match read_len net Sock.init sizeof_header with
  | (none, s) => s
  | (some hb, s) =>
    let msg_len := decode P.bigEndian (hb.take 8)
    let msg_type := decode P.bigEndian (hb.drop 8)
    match read_len net s msg_len with
    | (none, s1) => s1
    | (some path, s1) =>
      let full_path := [46] ++ c_str path
      let type := msg_type
      if type = MSG_READDIR then
        match h.opendir full_path with
        | none => close s1
        | some entries =>
          let e := send_entries P net entries s1
          if e.1 = false then close e.2
          else
            let w := write_len net e.2 (encode P.bigEndian 2 0)
            if w.1 = false then close w.2
            else close w.2
      else if type = MSG_GETATTR then
        match h.stat full_path with
        | none => close s1
        | some statbuf =>
          let w := write_len net s1 (P.stat_bytes statbuf)
          if w.1 = false then close w.2
          else close w.2
      else if type = MSG_OPEN then
        let response := match h.open_file full_path O_RDWR with
          | none => 0
          | some _ => 1
        let w := write_len net s1 (encode P.bigEndian 2 response)
        if w.1 = false then close w.2
        else close w.2
      else if type = MSG_READ then
        match read_len net s1 8 with
        | (none, s2) => close s2
        | (some ob, s2) =>
          let offset := toInt64 (decode P.bigEndian ob)
          match read_len net s2 8 with
          | (none, s3) => close s3
          | (some zb, s3) =>
            let size := decode P.bigEndian zb
            match h.open_file full_path O_RDWR with
            | none => close s3
            | some content =>
              match h.stat full_path with
              | none => close s3
              | some statbuf =>
                let w := write_len net s3
                  (encode P.bigEndian 8 (ofInt64 (deref_st_size_minus h statbuf offset)))
                if w.1 = false then close w.2
                else
                  let sf := sendfile h w.2 content offset size
                  if sf.1 = false then sf.2
                  else close sf.2
      else s1

/-- The response of the server, as a function of the request it has received. -/
def serve (P : Platform) (h : Host) (request : List Byte) : List Byte :=
  (handle_request P h request).sent

/-- A client environment in which the peer is the server executor on host `h`. -/
def Net.to_server (P : Platform) (h : Host) (connect_ok : Bool) (write_ok read_ok : Nat → Bool) :
    Net :=
  ⟨connect_ok, write_ok, read_ok, serve P h⟩

/-- The request made of a header and a path, in the order of the fields of
`struct netfs_msg_header`: `msg_len`, then `msg_type`, then the path. -/
def path_request (P : Platform) (type : Nat) (path : List Byte) : List Byte :=
  encode P.bigEndian 8 (strlen path + 1) ++ encode P.bigEndian 2 type ++ (c_str path ++ [0])

/-- The request of a `READ`: header, path, offset, size. -/
def read_request (P : Platform) (path : List Byte) (size : Nat) (offset : Int) : List Byte :=
  path_request P MSG_READ path ++ encode P.bigEndian 8 (ofInt64 offset) ++
    encode P.bigEndian 8 size

/-- The frames the `MSG_READDIR` branch sends for the entries of a directory:
for each name its length, terminator included, and the name with its terminator. -/
def dir_frames (P : Platform) : List (List Byte) → List Byte
  | [] => []
  | d_name :: rest =>
    encode P.bigEndian 2 (strlen d_name + 1) ++ (c_str d_name ++ [0]) ++ dir_frames P rest

/-- Content of the buffer `reply` of `netfs_readdir` after the names of the given
entries have been received into it one after the other. -/
def reply_after (reply : List Byte) (entries : List (List Byte)) : List Byte :=
  entries.foldl (fun r d_name => store r (c_str d_name ++ [0])) reply

/-! ## A concrete scenario

A server on Linux x86-64 rooted at a directory that holds the file `a.txt`
(4 bytes, "test"), the file `ro` (same content, readable but not writable) and
the subdirectory `sub`. -/

/-- The bytes of "test". -/
def a_txt : List Byte := [116, 101, 115, 116]

/-- The path "/a.txt". -/
def path_a_txt : List Byte := [47, 97, 46, 116, 120, 116]

/-- The path "/ro". -/
def path_ro : List Byte := [47, 114, 111]

/-- The path "/". -/
def path_root : List Byte := [47]

/-- Attributes of a regular file with mode 0644, one link, inode 7. -/
def demo_attrs : Stat :=
  { Stat.zero with st_dev := 2049, st_ino := 7, st_nlink := 1, st_mode := 0o100644,
                   st_uid := 1000, st_gid := 1000, st_blksize := 4096, st_blocks := 8 }

/-- The words that precede `st_size` inside `struct stat` on Linux x86-64, by
number of `off_t` slots: `st_rdev`, then `st_gid` with its padding, then
`st_mode` with `st_uid`, then `st_nlink`, `st_ino`, `st_dev`. Memory outside
the structure is taken to hold `outside`. -/
def x86_64_slots (st : Stat) (outside : Int) (k : Int) : Int :=
  if k = -1 then st.st_rdev
  else if k = -2 then st.st_gid
  else if k = -3 then st.st_mode + 2 ^ 32 * st.st_uid
  else if k = -4 then st.st_nlink
  else if k = -5 then st.st_ino
  else if k = -6 then st.st_dev
  else outside

/-- The directory tree of the scenario, by path relative to the server root. -/
def demo_tree (p : List Byte) : Option Node :=
  if p = [46, 47, 97, 46, 116, 120, 116] then some (Node.file demo_attrs true true a_txt)
  else if p = [46, 47, 114, 111] then
    some (Node.file { demo_attrs with st_mode := 0o100444 } true false a_txt)
  else if p = [46, 47] then
    some (Node.dir { demo_attrs with st_mode := 0o040700 } true
      [[46], [46, 46], [97, 46, 116, 120, 116], [115, 117, 98]])
  else none

/-- The server of the scenario; no primitive fails. -/
def demo_host : Host where
  write_ok := fun _ => true
  read_ok := fun _ => true
  sendfile_ok := true
  lookup := demo_tree
  around := x86_64_slots demo_attrs 0

/-- The same server, in a process whose memory outside `statbuf` holds -3 in
every slot. -/
def demo_host_stale : Host := { demo_host with around := x86_64_slots demo_attrs (-3) }

/-- A client connected to the server of the scenario; no primitive fails. -/
def demo_net : Net := Net.to_server linux_x86_64 demo_host true (fun _ => true) (fun _ => true)

/-- A client connected to that server. -/
def demo_net_stale : Net :=
  Net.to_server linux_x86_64 demo_host_stale true (fun _ => true) (fun _ => true)

/-- A client whose connection is established and then fails on the first write. -/
def broken_net : Net := ⟨true, fun _ => false, fun _ => true, fun _ => []⟩

/-- A file of 2147479553 zero bytes: one byte more than `MAX_RW_COUNT`. -/
def big_file : List Byte := List.replicate 2147479553 0

/-- The path "/big". -/
def path_big : List Byte := [47, 98, 105, 103]

/-- A server whose root holds the file `big`; no primitive fails. -/
def big_host : Host where
  write_ok := fun _ => true
  read_ok := fun _ => true
  sendfile_ok := true
  lookup := fun p =>
    if p = [46, 47, 98, 105, 103] then some (Node.file demo_attrs true true big_file) else none
  around := fun _ => 0

/-- A client connected to the server that holds `big`. -/
def big_net : Net := Net.to_server linux_x86_64 big_host true (fun _ => true) (fun _ => true)

/-! ## Arithmetic of the object representations -/

/-- An integer of width `w` takes `w` bytes. -/
theorem encLE_length (w v : Nat) : (encLE w v).length = w := by
  induction w generalizing v with
  | zero => rfl
  | succ w ih => simp [encLE, ih]

/-- An integer of width `w` takes `w` bytes, in either byte order. -/
theorem encode_length (be : Bool) (w v : Nat) : (encode be w v).length = w := by
  unfold encode
  split <;> simp [encLE_length]

/-- A value below 256 is the value of its byte. -/
theorem toNat_ofNat_mod (v : Nat) : (UInt8.ofNat (v % 256)).toNat = v % 256 := by
  show (v % 256) % 256 = v % 256
  exact Nat.mod_mod _ _

/-- Reading back the `w` low-order bytes of `v` gives `v mod 256^w`. -/
theorem decLE_encLE (w v : Nat) : decLE (encLE w v) = v % 256 ^ w := by
  induction w generalizing v with
  | zero => simp [encLE, decLE, Nat.mod_one]
  | succ w ih =>
    simp only [encLE, decLE, ih, toNat_ofNat_mod]
    rw [pow_succ', Nat.mod_mul]

/-- Decoding the representation of `v` on `w` bytes gives `v mod 256^w`. -/
theorem decode_encode (be : Bool) (w v : Nat) : decode be (encode be w v) = v % 256 ^ w := by
  unfold decode encode
  cases be <;> simp [decLE_encLE]

/-- A value that fits in `w` bytes survives encoding and decoding. -/
theorem decode_encode_of_lt (be : Bool) (w v : Nat) (h : v < 256 ^ w) :
    decode be (encode be w v) = v := by
  rw [decode_encode, Nat.mod_eq_of_lt h]

/-- A string followed by its terminator reads back as the same string. -/
theorem c_str_append_zero (p rest : List Byte) : c_str (c_str p ++ 0 :: rest) = c_str p := by
  unfold c_str
  induction p with
  | nil => simp
  | cons b p ih =>
    by_cases hb : (b != 0) = true
    · simp [List.takeWhile_cons, hb, ih]
    · simp [List.takeWhile_cons, hb]

/-- The first `strlen + 1` bytes at a string are the string and its terminator. -/
theorem take_c_str_zero (p : List Byte) : (c_str p ++ [0]).take (strlen p + 1) = c_str p ++ [0] := by
  apply List.take_of_length_le
  simp [strlen]

/-- A value in the range of `off_t` is the signed reading of its 64-bit pattern. -/
theorem toInt64_ofInt64 (i : Int) (h1 : -2 ^ 63 ≤ i) (h2 : i < 2 ^ 63) :
    toInt64 (ofInt64 i) = i := by
  unfold toInt64 ofInt64
  have hpos : (0 : Int) ≤ i % 2 ^ 64 := Int.emod_nonneg _ (by norm_num)
  have hlt : i % 2 ^ 64 < 2 ^ 64 := Int.emod_lt_of_pos _ (by norm_num)
  have hm : ((i % 2 ^ 64).toNat % 2 ^ 64 : Nat) = (i % 2 ^ 64).toNat := by
    apply Nat.mod_eq_of_lt
    omega
  rw [hm]
  have hc : (((i % 2 ^ 64).toNat : Nat) : Int) = i % 2 ^ 64 := Int.toNat_of_nonneg hpos
  split
  · rename_i hlt63
    rw [hc]
    omega
  · rename_i hge
    rw [hc]
    omega

/-- An `off_t` survives the trip over the wire. -/
theorem int64_roundtrip (be : Bool) (i : Int) (h1 : -2 ^ 63 ≤ i) (h2 : i < 2 ^ 63) :
    toInt64 (decode be (encode be 8 (ofInt64 i))) = i := by
  have e64 : (256 : Nat) ^ 8 = 2 ^ 64 := by norm_num
  rw [decode_encode, e64]
  have : ofInt64 i % 2 ^ 64 = ofInt64 i := by
    apply Nat.mod_eq_of_lt
    unfold ofInt64
    have := Int.emod_lt_of_pos i (show (0 : Int) < 2 ^ 64 by norm_num)
    have := Int.emod_nonneg i (show (2 : Int) ^ 64 ≠ 0 by norm_num)
    omega
  rw [this]
  exact toInt64_ofInt64 _ h1 h2

/-! ## Single steps of the transport primitives -/

/-- A `write_len` that succeeds appends its buffer to the bytes sent. -/
theorem write_len_ok (net : Net) (s : Sock) (buf : List Byte) (h : net.write_ok s.writes = true) :
    write_len net s buf =
      (true, { s with sent := s.sent ++ buf, writes := s.writes + 1,
                      trace := s.trace ++ [Action.send buf] }) := by
  simp [write_len, h]

/-- A `read_len` that succeeds delivers the head of the pending bytes. -/
theorem read_len_eq (net : Net) (s : Sock) (n : Nat) (bs rest : List Byte)
    (hok : net.read_ok s.reads = true) (hp : pending net s = bs ++ rest) (hn : bs.length = n) :
    read_len net s n =
      (some bs, { s with consumed := s.consumed + n, reads := s.reads + 1,
                         trace := s.trace ++ [Action.recv n] }) := by
  subst hn
  simp [read_len, hp, hok]

/-- After a block has been consumed, the bytes after it are pending. -/
theorem pending_advance (net : Net) (s : Sock) (n r : Nat) (t : List Action)
    (bs rest : List Byte) (hp : pending net s = bs ++ rest) (hn : bs.length = n) :
    pending net { s with consumed := s.consumed + n, reads := r, trace := t } = rest := by
  subst hn
  unfold pending at hp ⊢
  simp only
  rw [← List.drop_drop, hp]
  simp

/-- On a connection whose reads all succeed, `read_len` consumes the next block. -/
theorem read_len_step (net : Net) (s : Sock) (n : Nat) (bs rest : List Byte)
    (hok : ∀ k, net.read_ok k = true) (hp : pending net s = bs ++ rest) (hn : bs.length = n) :
    ∃ s1, read_len net s n = (some bs, s1) ∧ s1.sent = s.sent ∧ pending net s1 = rest :=
  ⟨_, read_len_eq net s n bs rest (hok _) hp hn, rfl, pending_advance net s n _ _ bs rest hp hn⟩

/-- On a connection whose writes all succeed, `write_len` appends its buffer. -/
theorem write_len_step (net : Net) (s : Sock) (buf : List Byte)
    (hok : ∀ k, net.write_ok k = true) :
    ∃ s1, write_len net s buf = (true, s1) ∧ s1.sent = s.sent ++ buf ∧
      s1.consumed = s.consumed :=
  ⟨_, write_len_ok net s buf (hok _), rfl, rfl⟩

/-- When its two writes succeed, `send_path` returns 0 having sent the request. -/
theorem send_path_ok (P : Platform) (net : Net) (type : Nat) (s : Sock) (path : List Byte)
    (h1 : net.write_ok s.writes = true) (h2 : net.write_ok (s.writes + 1) = true) :
    send_path P net type s path =
      (0, { s with
            sent := s.sent ++ path_request P type path,
            writes := s.writes + 2,
            trace := s.trace ++
              [Action.send (encode P.bigEndian 8 (strlen path + 1) ++ encode P.bigEndian 2 type),
               Action.send (c_str path ++ [0])] }) := by
  simp [send_path, write_len, h1, h2, take_c_str_zero, path_request]

/-! ## The exchanges, end to end -/

/-- The response of the `MSG_READ` branch when no primitive fails and the file
can be opened and stat-ed: the word designated by `&statbuf.st_size - offset`,
then the range of the file that `sendfile` copies. -/
theorem handle_request_read (P : Platform) (h : Host) (path : List Byte) (size : Nat)
    (offset : Int) (content : List Byte) (statbuf : Stat)
    (hr : ∀ k, h.read_ok k = true) (hw : ∀ k, h.write_ok k = true) (hsf : h.sendfile_ok = true)
    (hlen : strlen path + 1 < 2 ^ 64) (hsize : size < 2 ^ 64)
    (hoff1 : -2 ^ 63 ≤ offset) (hoff2 : offset < 2 ^ 63)
    (hopen : h.open_file ([46] ++ c_str path) O_RDWR = some content)
    (hstat : h.stat ([46] ++ c_str path) = some statbuf) :
    serve P h (read_request P path size offset) =
      encode P.bigEndian 8 (ofInt64 (deref_st_size_minus h statbuf offset)) ++
        (if 0 ≤ offset then (content.drop offset.toNat).take (min size MAX_RW_COUNT)
          else []) := by
  have e64 : (256 : Nat) ^ 8 = 2 ^ 64 := by norm_num
  have hA : decode P.bigEndian (encode P.bigEndian 8 (strlen path + 1)) = strlen path + 1 :=
    decode_encode_of_lt _ _ _ (by rw [e64]; exact hlen)
  have hB : decode P.bigEndian (encode P.bigEndian 2 MSG_READ) = MSG_READ :=
    decode_encode_of_lt _ _ _ (by norm_num [MSG_READ])
  have hO : toInt64 (decode P.bigEndian (encode P.bigEndian 8 (ofInt64 offset))) = offset :=
    int64_roundtrip _ _ hoff1 hoff2
  have hZ : decode P.bigEndian (encode P.bigEndian 8 size) = size :=
    decode_encode_of_lt _ _ _ (by rw [e64]; exact hsize)
  have hC : c_str (c_str path ++ [0]) = c_str path := c_str_append_zero path []
  have hrn : ∀ k, (h.net (read_request P path size offset)).read_ok k = true := hr
  have hwn : ∀ k, (h.net (read_request P path size offset)).write_ok k = true := hw
  have p0 : pending (h.net (read_request P path size offset)) Sock.init =
      (encode P.bigEndian 8 (strlen path + 1) ++ encode P.bigEndian 2 MSG_READ) ++
        ((c_str path ++ [0]) ++ (encode P.bigEndian 8 (ofInt64 offset) ++
          (encode P.bigEndian 8 size ++ []))) := by
    simp [pending, Host.net, read_request, path_request, Sock.init]
  obtain ⟨s1, r1, e1, p1⟩ := read_len_step _ _ sizeof_header _ _ hrn p0
    (by simp [encode_length, sizeof_header])
  obtain ⟨s2, r2, e2, p2⟩ := read_len_step _ _ (strlen path + 1) _ _ hrn p1 (by simp [strlen])
  obtain ⟨s3, r3, e3, p3⟩ := read_len_step _ _ 8 _ _ hrn p2 (by simp [encode_length])
  obtain ⟨s4, r4, e4, _⟩ := read_len_step _ _ 8 _ _ hrn p3 (by simp [encode_length])
  obtain ⟨s5, r5, e5, _⟩ := write_len_step (h.net (read_request P path size offset)) s4
    (encode P.bigEndian 8 (ofInt64 (deref_st_size_minus h statbuf offset))) hwn
  have hs4 : s4.sent = [] := by rw [e4, e3, e2, e1]; rfl
  unfold serve handle_request
  simp only [r1]
  rw [List.take_left' (encode_length _ _ _), List.drop_left' (encode_length _ _ _), hA, hB]
  simp only [r2, hC, r3, r4, hO, hZ, hopen, hstat, r5]
  by_cases hoff : 0 ≤ offset
  · simp [MSG_READ, MSG_READDIR, MSG_GETATTR, MSG_OPEN, sendfile, hsf, hoff, close, e5, hs4]
  · simp [MSG_READ, MSG_READDIR, MSG_GETATTR, MSG_OPEN, sendfile, hsf, hoff, close, e5, hs4]

/-! ## System calls on the served tree -/

/-- Opening a regular file with `O_RDWR` takes read and write access. -/
theorem open_rdwr_file (h : Host) (fp : List Byte) (attrs : Stat) (r w : Bool) (c : List Byte)
    (hl : h.lookup fp = some (Node.file attrs r w c)) :
    h.open_file fp O_RDWR = if r && w then some c else none := by
  have h23 : (2 : Nat) &&& 3 = 2 := by decide
  simp [Host.open_file, hl, O_RDWR, O_ACCMODE, O_RDONLY, O_WRONLY, h23]

/-- Opening a directory with `O_RDWR` fails. -/
theorem open_rdwr_dir (h : Host) (fp : List Byte) (attrs : Stat) (r : Bool)
    (es : List (List Byte)) (hl : h.lookup fp = some (Node.dir attrs r es)) :
    h.open_file fp O_RDWR = none := by
  have h23 : (2 : Nat) &&& 3 = 2 := by decide
  simp [Host.open_file, hl, O_RDWR, O_ACCMODE, O_RDONLY, h23]

/-- Opening a path that does not exist fails. -/
theorem open_rdwr_absent (h : Host) (fp : List Byte) (hl : h.lookup fp = none) :
    h.open_file fp O_RDWR = none := by
  simp [Host.open_file, hl]

/-- A path that can be opened with `O_RDWR` can be stat-ed, and its size is the
length of the content. -/
theorem stat_of_open_rdwr (h : Host) (fp c : List Byte)
    (ho : h.open_file fp O_RDWR = some c) :
    ∃ st, h.stat fp = some st ∧ st.st_size = (c.length : Int) := by
  have h23 : (2 : Nat) &&& 3 = 2 := by decide
  unfold Host.open_file at ho
  unfold Host.stat
  cases hl : h.lookup fp with
  | none => simp [hl] at ho
  | some node =>
    cases node with
    | file attrs r w content =>
      simp [hl, O_RDWR, O_ACCMODE, O_RDONLY, O_WRONLY, h23] at ho
      simp [ho.2]
    | dir attrs r entries =>
      simp [hl, O_RDWR, O_ACCMODE, O_RDONLY, h23] at ho

/-- On a connection whose writes all succeed, `send_path` sends the request. -/
theorem send_path_step (P : Platform) (net : Net) (type : Nat) (s : Sock) (path : List Byte)
    (hok : ∀ k, net.write_ok k = true) :
    ∃ s1, send_path P net type s path = (0, s1) ∧
      s1.sent = s.sent ++ path_request P type path ∧ s1.consumed = s.consumed :=
  ⟨_, send_path_ok P net type s path (hok _) (hok _), rfl, rfl⟩

/-- The client side of a `READ` whose response announces exactly the number of
content bytes that follow: the buffer receives them and the result is `size`
converted to `int`. -/
theorem netfs_read_client (P : Platform) (net : Net) (path : List Byte) (size : Nat)
    (offset v : Int) (data : List Byte)
    (hc : net.connect_ok = true) (hw : ∀ k, net.write_ok k = true)
    (hr : ∀ k, net.read_ok k = true)
    (hresp : net.peer (read_request P path size offset) =
      encode P.bigEndian 8 (ofInt64 v) ++ data)
    (hv1 : -2 ^ 63 ≤ v) (hv2 : v < 2 ^ 63) (hframe : ofInt64 v = data.length) :
    (netfs_read P net path size offset).ret = toInt32 size ∧
      (netfs_read P net path size offset).out = data ∧
      (netfs_read P net path size offset).sock.sent = read_request P path size offset := by
  have hV : toInt64 (decode P.bigEndian (encode P.bigEndian 8 (ofInt64 v))) = v :=
    int64_roundtrip _ _ hv1 hv2
  obtain ⟨s1, r1, e1, c1⟩ := send_path_step P net MSG_READ (connect_to net).2 path hw
  obtain ⟨s2, r2, e2, c2⟩ := write_len_step net s1 (encode P.bigEndian 8 (ofInt64 offset)) hw
  obtain ⟨s3, r3, e3, c3⟩ := write_len_step net s2 (encode P.bigEndian 8 size) hw
  have hs3 : s3.sent = read_request P path size offset := by
    rw [e3, e2, e1]
    simp [connect_to, Sock.init, read_request, path_request]
  have hc3 : s3.consumed = 0 := by rw [c3, c2, c1]; rfl
  have p3 : pending net s3 = encode P.bigEndian 8 (ofInt64 v) ++ (data ++ []) := by
    simp [pending, hs3, hc3, hresp]
  obtain ⟨s4, r4, e4, p4⟩ := read_len_step net s3 8 _ _ hr p3 (by simp [encode_length])
  obtain ⟨s5, r5, e5, _⟩ := read_len_step net s4 (ofInt64 v) _ _ hr p4 hframe.symm
  have hcn : (connect_to net).1 = true := hc
  unfold netfs_read
  simp only [r1, r2, r3, r4, r5, hV, hcn]
  simp [close, e5, e4, hs3]

/-- The 64-bit pattern of a natural number below `2^64` is the number. -/
theorem ofInt64_natCast (n : Nat) (h : n < 2 ^ 64) : ofInt64 (n : Int) = n := by
  unfold ofInt64
  have : ((n : Int) % 2 ^ 64) = (n : Int) := Int.emod_eq_of_lt (by omega) (by omega)
  rw [this]
  simp

/-- End-to-end `READ` of a whole file that one call of `sendfile` transfers: the
buffer receives the content and the result is the length converted to `int`. -/
theorem read_whole_file (P : Platform) (h : Host) (net : Net) (path c : List Byte)
    (hc : net.connect_ok = true) (hw : ∀ k, net.write_ok k = true)
    (hr : ∀ k, net.read_ok k = true) (hpeer : net.peer = serve P h)
    (hsr : ∀ k, h.read_ok k = true) (hsw : ∀ k, h.write_ok k = true)
    (hsf : h.sendfile_ok = true)
    (hopen : h.open_file ([46] ++ c_str path) O_RDWR = some c)
    (hlen : strlen path + 1 < 2 ^ 64) (hn : c.length ≤ MAX_RW_COUNT) :
    (netfs_read P net path c.length 0).ret = toInt32 c.length ∧
      (netfs_read P net path c.length 0).out = c ∧
      (netfs_read P net path c.length 0).sock.sent = read_request P path c.length 0 := by
  have hcap : MAX_RW_COUNT = 2147479552 := rfl
  obtain ⟨st, hstat, hsize⟩ := stat_of_open_rdwr h _ c hopen
  have hserve := handle_request_read P h path c.length 0 c st hsr hsw hsf hlen (by omega)
    (by norm_num) (by norm_num) hopen hstat
  have hresp : net.peer (read_request P path c.length 0) =
      encode P.bigEndian 8 (ofInt64 (c.length : Int)) ++ c := by
    rw [hpeer, hserve]
    simp [deref_st_size_minus, hsize, Nat.min_eq_left hn]
  exact netfs_read_client P net path c.length 0 (c.length : Int) c hc hw hr hresp
    (by omega) (by omega) (ofInt64_natCast _ (by omega))

/-- A value below `2^31` converts to `int` unchanged. -/
theorem toInt32_of_lt (n : Nat) (h : n < 2 ^ 31) : toInt32 n = n := by
  unfold toInt32
  have : n % 2 ^ 32 = n := Nat.mod_eq_of_lt (by omega)
  rw [this, if_pos h]

/-- C7 (as amended): for every operation code `op` and every path, when both
writes succeed `send_path` returns 0 and appends to the connection exactly a
10-byte unpadded header made of `payload_length` as an unsigned 64-bit integer
followed by `op` as an unsigned 16-bit integer (the order of the fields of
`struct netfs_msg_header`), where `payload_length = strlen(path) + 1`, followed by
exactly `payload_length` bytes: the path and its terminating zero byte. Header
and payload are two consecutive `write_len` calls. -/
theorem send_path_encoding (P : Platform) (net : Net) (op : Nat) (s : Sock) (path : List Byte)
    (h1 : net.write_ok s.writes = true) (h2 : net.write_ok (s.writes + 1) = true) :
    (send_path P net op s path).1 = 0 ∧
      (send_path P net op s path).2.sent =
        s.sent ++ (encode P.bigEndian 8 (strlen path + 1) ++ encode P.bigEndian 2 op ++
          (c_str path ++ [0])) ∧
      (send_path P net op s path).2.trace =
        s.trace ++ [Action.send (encode P.bigEndian 8 (strlen path + 1) ++ encode P.bigEndian 2 op),
          Action.send (c_str path ++ [0])] ∧
      (encode P.bigEndian 8 (strlen path + 1) ++ encode P.bigEndian 2 op).length = 10 ∧
      (c_str path ++ [0]).length = strlen path + 1 := by
  rw [send_path_ok P net op s path h1 h2]
  simp [path_request, encode_length, strlen]

/-- C5: for every path and every flags value whose access mode
`flags & O_ACCMODE` is not `O_RDONLY`, `netfs_open` returns a negative value and
calls no transport primitive at all (its trace of connect, send, receive and
close calls is empty); and for a read-only open whose exchange succeeds
(connect, both writes of the request and the read of the two-byte answer), it
returns 0 if and only if the 16-bit flag received is exactly 1. -/
theorem netfs_open_contract (P : Platform) (net : Net) (path : List Byte) (flags : Nat) :
    (flags &&& O_ACCMODE ≠ O_RDONLY →
      (netfs_open P net path flags).ret < 0 ∧ (netfs_open P net path flags).sock.trace = []) ∧
    (flags &&& O_ACCMODE = O_RDONLY → net.connect_ok = true → net.write_ok 0 = true →
      net.write_ok 1 = true → net.read_ok 0 = true →
      2 ≤ (net.peer (path_request P MSG_OPEN path)).length →
      ((netfs_open P net path flags).ret = 0 ↔
        decode P.bigEndian ((net.peer (path_request P MSG_OPEN path)).take 2) = 1)) := by
  constructor
  · intro hf
    simp [netfs_open, hf, EACCES, Sock.init]
  · intro hf hc h1 h2 hr hlen
    have sp := send_path_ok P net MSG_OPEN (connect_to net).2 path h1 h2
    have hcn : (connect_to net).1 = true := hc
    unfold netfs_open
    simp only [hf, hcn, sp]
    simp [read_len, pending, connect_to, Sock.init, hr, hlen]

/-- C4: whatever attributes snapshot arrives from the wire, a successful
`netfs_getattr` (return value 0) on the path "/" leaves in `stbuf` the received
snapshot with its mode replaced by `S_IFDIR | 0755` and all other fields as
received; on every other path it leaves the received snapshot unchanged. -/
theorem netfs_getattr_root_override (P : Platform) (net : Net) (path : List Byte)
    (hret : (netfs_getattr P net path).ret = 0) :
    (c_str path = [47] →
      (netfs_getattr P net path).out =
        { P.stat_of_bytes ((net.peer (path_request P MSG_GETATTR path)).take P.sizeof_stat) with
          st_mode := S_IFDIR ||| 0o755 }) ∧
    (c_str path ≠ [47] →
      (netfs_getattr P net path).out =
        P.stat_of_bytes ((net.peer (path_request P MSG_GETATTR path)).take P.sizeof_stat)) := by
  by_cases hc : net.connect_ok = true
  swap
  · simp [netfs_getattr, connect_to, hc] at hret
  by_cases h1 : net.write_ok 0 = true
  swap
  · simp [netfs_getattr, connect_to, send_path, write_len, Sock.init, hc, h1] at hret
  by_cases h2 : net.write_ok 1 = true
  swap
  · simp [netfs_getattr, connect_to, send_path, write_len, Sock.init, hc, h1, h2] at hret
  have sp := send_path_ok P net MSG_GETATTR (connect_to net).2 path h1 h2
  have hcn : (connect_to net).1 = true := hc
  by_cases hr : (net.read_ok 0 &&
      decide (P.sizeof_stat ≤ (net.peer (path_request P MSG_GETATTR path)).length)) = true
  swap
  · unfold netfs_getattr at hret
    simp only [hcn, sp] at hret
    simp [read_len, pending, connect_to, Sock.init, hr] at hret
  · unfold netfs_getattr
    simp only [hcn, sp]
    simp [read_len, pending, connect_to, Sock.init, hr]
    refine ⟨fun hp => ?_, fun hp => ?_⟩
    · rw [if_pos hp]
    · rw [if_neg hp]

/-- The response of the `MSG_OPEN` branch when no primitive fails: the flag is 1
if `open(full_path, O_RDWR)` succeeds and 0 otherwise. -/
theorem handle_request_open (P : Platform) (h : Host) (path : List Byte)
    (hr : ∀ k, h.read_ok k = true) (hw : ∀ k, h.write_ok k = true)
    (hlen : strlen path + 1 < 2 ^ 64) :
    serve P h (path_request P MSG_OPEN path) =
      encode P.bigEndian 2
        (match h.open_file ([46] ++ c_str path) O_RDWR with
          | none => 0
          | some _ => 1) := by
  have e64 : (256 : Nat) ^ 8 = 2 ^ 64 := by norm_num
  have hA : decode P.bigEndian (encode P.bigEndian 8 (strlen path + 1)) = strlen path + 1 :=
    decode_encode_of_lt _ _ _ (by rw [e64]; exact hlen)
  have hB : decode P.bigEndian (encode P.bigEndian 2 MSG_OPEN) = MSG_OPEN :=
    decode_encode_of_lt _ _ _ (by norm_num [MSG_OPEN])
  have hC : c_str (c_str path ++ [0]) = c_str path := c_str_append_zero path []
  have hrn : ∀ k, (h.net (path_request P MSG_OPEN path)).read_ok k = true := hr
  have hwn : ∀ k, (h.net (path_request P MSG_OPEN path)).write_ok k = true := hw
  have p0 : pending (h.net (path_request P MSG_OPEN path)) Sock.init =
      (encode P.bigEndian 8 (strlen path + 1) ++ encode P.bigEndian 2 MSG_OPEN) ++
        ((c_str path ++ [0]) ++ []) := by
    simp [pending, Host.net, path_request, Sock.init]
  obtain ⟨s1, r1, e1, p1⟩ := read_len_step _ _ sizeof_header _ _ hrn p0
    (by simp [encode_length, sizeof_header])
  obtain ⟨s2, r2, e2, _⟩ := read_len_step _ _ (strlen path + 1) _ _ hrn p1 (by simp [strlen])
  have hs2 : s2.sent = [] := by rw [e2, e1]; rfl
  unfold serve handle_request
  simp only [r1]
  rw [List.take_left' (encode_length _ _ _), List.drop_left' (encode_length _ _ _), hA, hB]
  simp only [r2, hC]
  obtain ⟨s3, r3, e3, _⟩ := write_len_step (h.net (path_request P MSG_OPEN path)) s2
    (encode P.bigEndian 2 (match h.open_file ([46] ++ c_str path) O_RDWR with
          | none => 0
          | some _ => 1)) hwn
  simp only [r3]
  simp [MSG_READDIR, MSG_GETATTR, MSG_OPEN, close, e3, hs2]

/-- C6 (as amended): for every resolved path, when no transport primitive
fails the `MSG_OPEN` branch answers with the flag 1 exactly when
`open(full_path, O_RDWR)` succeeds, that is when the path names an existing
regular file that is both readable and writable; it answers with the flag 0 for
a file that lacks read or write access (a readable file that is not writable
included), for a directory, and for a path that does not exist. -/
theorem handle_request_open_flag (P : Platform) (h : Host) (path : List Byte)
    (hr : ∀ k, h.read_ok k = true) (hw : ∀ k, h.write_ok k = true)
    (hlen : strlen path + 1 < 2 ^ 64) :
    (∀ attrs r w c, h.lookup ([46] ++ c_str path) = some (Node.file attrs r w c) →
      serve P h (path_request P MSG_OPEN path) =
        encode P.bigEndian 2 (if r && w then 1 else 0)) ∧
    (∀ attrs r es, h.lookup ([46] ++ c_str path) = some (Node.dir attrs r es) →
      serve P h (path_request P MSG_OPEN path) = encode P.bigEndian 2 0) ∧
    (h.lookup ([46] ++ c_str path) = none →
      serve P h (path_request P MSG_OPEN path) = encode P.bigEndian 2 0) := by
  refine ⟨fun attrs r w c hl => ?_, fun attrs r es hl => ?_, fun hl => ?_⟩
  · rw [handle_request_open P h path hr hw hlen, open_rdwr_file h _ attrs r w c hl]
    cases r <;> cases w <;> rfl
  · rw [handle_request_open P h path hr hw hlen, open_rdwr_dir h _ attrs r es hl]
  · rw [handle_request_open P h path hr hw hlen, open_rdwr_absent h _ hl]

/-- The loop of `netfs_readdir` ends within its iteration budget whenever the
budget exceeds the number of pending bytes. -/
theorem readdir_loop_isSome (P : Platform) (net : Net) (fuel : Nat) :
    ∀ (s : Sock) (reply : List Byte) (emitted : List (List Byte)),
      (pending net s).length < fuel → (readdir_loop P net fuel s reply emitted).isSome = true := by
  induction fuel with
  | zero => intro s reply emitted hlt; omega
  | succ fuel ih =>
    intro s reply emitted hlt
    unfold readdir_loop
    by_cases h1 : (net.read_ok s.reads && decide (2 ≤ (pending net s).length)) = true
    swap
    · simp [read_len, h1]
    simp only [read_len, h1, if_true]
    split_ifs
    all_goals first
      | rfl
      | (apply ih
         simp only [pending, List.length_drop, Bool.and_eq_true, decide_eq_true_eq] at hlt h1 ⊢
         omega)

/-- The model of `netfs_readdir` always produces a result: the budget it gives to
its loop is never used up. -/
theorem netfs_readdir_isSome (P : Platform) (net : Net) (path : List Byte) :
    (netfs_readdir P net path).isSome = true := by
  unfold netfs_readdir
  dsimp only
  split_ifs
  · rfl
  · rfl
  · exact readdir_loop_isSome P net _ _ _ _ (Nat.lt_succ_self _)

/-! ## What the code does where it departs from the protocol -/

/-- For every `READ` at an offset other than 0, the value the server announces
is the memory word `offset` slots before `st_size`, whatever the file size is,
and the content that follows is the range of the file bounded by `size` and by
what one call of `sendfile` transfers. -/
theorem read_response_at_offset (P : Platform) (h : Host) (path : List Byte) (size : Nat)
    (offset : Int) (content : List Byte) (statbuf : Stat)
    (hr : ∀ k, h.read_ok k = true) (hw : ∀ k, h.write_ok k = true) (hsf : h.sendfile_ok = true)
    (hlen : strlen path + 1 < 2 ^ 64) (hsize : size < 2 ^ 64)
    (hoff1 : 0 < offset) (hoff2 : offset < 2 ^ 63)
    (hopen : h.open_file ([46] ++ c_str path) O_RDWR = some content)
    (hstat : h.stat ([46] ++ c_str path) = some statbuf) :
    serve P h (read_request P path size offset) =
      encode P.bigEndian 8 (ofInt64 (h.around (-offset))) ++
        (content.drop offset.toNat).take (min size MAX_RW_COUNT) := by
  rw [handle_request_read P h path size offset content statbuf hr hw hsf hlen hsize (by omega)
    hoff2 hopen hstat]
  have h0 : offset ≠ 0 := by omega
  have h1 : 0 ≤ offset := by omega
  simp [deref_st_size_minus, h0, h1]

/-- For every `READ` at offset 0 the server announces the file size and then
sends the first `size` bytes of the file only, and no more than one call of
`sendfile` transfers. -/
theorem read_response_at_zero (P : Platform) (h : Host) (path : List Byte) (size : Nat)
    (content : List Byte)
    (hr : ∀ k, h.read_ok k = true) (hw : ∀ k, h.write_ok k = true) (hsf : h.sendfile_ok = true)
    (hlen : strlen path + 1 < 2 ^ 64) (hsize : size < 2 ^ 64)
    (hopen : h.open_file ([46] ++ c_str path) O_RDWR = some content) :
    serve P h (read_request P path size 0) =
      encode P.bigEndian 8 (ofInt64 (content.length : Int)) ++
        content.take (min size MAX_RW_COUNT) := by
  obtain ⟨st, hstat, hsz⟩ := stat_of_open_rdwr h _ content hopen
  rw [handle_request_read P h path size 0 content st hr hw hsf hlen hsize (by norm_num)
    (by norm_num) hopen hstat]
  simp [deref_st_size_minus, hsz]

/-- Every run of `netfs_getattr` that returns 0 ends without any `close`. -/
theorem netfs_getattr_success_closes (P : Platform) (net : Net) (path : List Byte)
    (hret : (netfs_getattr P net path).ret = 0) :
    (netfs_getattr P net path).sock.closes = 0 := by
  by_cases hc : net.connect_ok = true
  swap
  · simp [netfs_getattr, connect_to, hc] at hret
  by_cases h1 : net.write_ok 0 = true
  swap
  · simp [netfs_getattr, connect_to, send_path, write_len, Sock.init, hc, h1] at hret
  by_cases h2 : net.write_ok 1 = true
  swap
  · simp [netfs_getattr, connect_to, send_path, write_len, Sock.init, hc, h1, h2] at hret
  have sp := send_path_ok P net MSG_GETATTR (connect_to net).2 path h1 h2
  have hcn : (connect_to net).1 = true := hc
  by_cases hr : (net.read_ok 0 &&
      decide (P.sizeof_stat ≤ (net.peer (path_request P MSG_GETATTR path)).length)) = true
  swap
  · unfold netfs_getattr at hret
    simp only [hcn, sp] at hret
    simp [read_len, pending, connect_to, Sock.init, hr] at hret
  · unfold netfs_getattr
    simp only [hcn, sp]
    simp [read_len, pending, connect_to, Sock.init, hr, Sock.closes]
    split_ifs <;> simp

/-- When the connection is established and the first write of `send_path`
fails, every handler returns -1 after two calls of `close`. -/
theorem handlers_close_twice (P : Platform) (net : Net) (path : List Byte) (flags size : Nat)
    (offset : Int) (hf : flags &&& O_ACCMODE = O_RDONLY)
    (hc : net.connect_ok = true) (h1 : net.write_ok 0 = false) :
    ((netfs_getattr P net path).ret = -1 ∧ (netfs_getattr P net path).sock.closes = 2) ∧
    (netfs_readdir P net path).map (fun r => (r.ret, r.sock.closes)) = some (-1, 2) ∧
    ((netfs_open P net path flags).ret = -1 ∧ (netfs_open P net path flags).sock.closes = 2) ∧
    ((netfs_read P net path size offset).ret = -1 ∧
      (netfs_read P net path size offset).sock.closes = 2) := by
  simp [netfs_getattr, netfs_readdir, netfs_open, netfs_read, connect_to, send_path, write_len,
    Sock.init, close, Sock.closes, hc, h1, hf]

/-- The entries loop of the server sends one frame per entry. -/
theorem send_entries_ok (P : Platform) (net : Net) (hw : ∀ k, net.write_ok k = true) :
    ∀ (entries : List (List Byte)) (s : Sock), (∀ e ∈ entries, strlen e + 1 < 2 ^ 16) →
      ∃ s1, send_entries P net entries s = (true, s1) ∧
        s1.sent = s.sent ++ dir_frames P entries := by
  intro entries
  induction entries with
  | nil => intro s _; exact ⟨s, rfl, by simp [dir_frames]⟩
  | cons e rest ih =>
    intro s hn
    have he : (strlen e + 1) % 2 ^ 16 = strlen e + 1 :=
      Nat.mod_eq_of_lt (hn e (List.mem_cons_self _ _))
    obtain ⟨s1, r1, e1, _⟩ := write_len_step net s (encode P.bigEndian 2 (strlen e + 1)) hw
    obtain ⟨s2, r2, e2, _⟩ := write_len_step net s1 (c_str e ++ [0]) hw
    obtain ⟨s3, r3, e3⟩ := ih s2 (fun x hx => hn x (List.mem_cons_of_mem _ hx))
    refine ⟨s3, ?_, ?_⟩
    · unfold send_entries
      simp only [he, take_c_str_zero, r1, r2]
      simpa using r3
    · rw [e3, e2, e1]
      simp [dir_frames]

/-- The response to `LIST_DIR`: one frame per entry, then the zero length. -/
theorem handle_request_readdir (P : Platform) (h : Host) (path : List Byte)
    (entries : List (List Byte))
    (hr : ∀ k, h.read_ok k = true) (hw : ∀ k, h.write_ok k = true)
    (hlen : strlen path + 1 < 2 ^ 64)
    (hdir : h.opendir ([46] ++ c_str path) = some entries)
    (hnames : ∀ e ∈ entries, strlen e + 1 < 2 ^ 16) :
    serve P h (path_request P MSG_READDIR path) =
      dir_frames P entries ++ encode P.bigEndian 2 0 := by
  have e64 : (256 : Nat) ^ 8 = 2 ^ 64 := by norm_num
  have hA : decode P.bigEndian (encode P.bigEndian 8 (strlen path + 1)) = strlen path + 1 :=
    decode_encode_of_lt _ _ _ (by rw [e64]; exact hlen)
  have hB : decode P.bigEndian (encode P.bigEndian 2 MSG_READDIR) = MSG_READDIR :=
    decode_encode_of_lt _ _ _ (by norm_num [MSG_READDIR])
  have hC : c_str (c_str path ++ [0]) = c_str path := c_str_append_zero path []
  have hrn : ∀ k, (h.net (path_request P MSG_READDIR path)).read_ok k = true := hr
  have hwn : ∀ k, (h.net (path_request P MSG_READDIR path)).write_ok k = true := hw
  have p0 : pending (h.net (path_request P MSG_READDIR path)) Sock.init =
      (encode P.bigEndian 8 (strlen path + 1) ++ encode P.bigEndian 2 MSG_READDIR) ++
        ((c_str path ++ [0]) ++ []) := by
    simp [pending, Host.net, path_request, Sock.init]
  obtain ⟨s1, r1, e1, p1⟩ := read_len_step _ _ sizeof_header _ _ hrn p0
    (by simp [encode_length, sizeof_header])
  obtain ⟨s2, r2, e2, _⟩ := read_len_step _ _ (strlen path + 1) _ _ hrn p1 (by simp [strlen])
  have hs2 : s2.sent = [] := by rw [e2, e1]; rfl
  obtain ⟨s3, r3, e3⟩ := send_entries_ok P (h.net (path_request P MSG_READDIR path)) hwn
    entries s2 hnames
  obtain ⟨s4, r4, e4, _⟩ := write_len_step (h.net (path_request P MSG_READDIR path)) s3
    (encode P.bigEndian 2 0) hwn
  unfold serve handle_request
  simp only [r1]
  rw [List.take_left' (encode_length _ _ _), List.drop_left' (encode_length _ _ _), hA, hB]
  simp only [r2, hC, hdir, r3, r4]
  simp [close, e4, e3, hs2]

/-- After a name and its terminator have been received into `reply`, `reply` reads
as that name. -/
theorem c_str_store (reply e : List Byte) : c_str (store reply (c_str e ++ [0])) = c_str e := by
  unfold store
  rw [List.append_assoc]
  exact c_str_append_zero e _

/-- After the names of a list of entries have been received, `reply` reads as the
last of them, and as before if there was none. -/
theorem c_str_reply_after (entries : List (List Byte)) :
    ∀ reply, c_str (reply_after reply entries) = (entries.map c_str).getLastD (c_str reply) := by
  induction entries with
  | nil => intro reply; rfl
  | cons e rest ih =>
    intro reply
    show c_str (reply_after (store reply (c_str e ++ [0])) rest) = _
    rw [ih, c_str_store, List.map_cons, List.getLastD_cons]

/-- The loop of `netfs_readdir` on the frames of a directory listing: it passes to
`filler` every name, and then the content of `reply` once more. -/
theorem readdir_loop_frames (P : Platform) (net : Net) (hr : ∀ k, net.read_ok k = true) :
    ∀ (entries : List (List Byte)) (fuel : Nat) (s : Sock) (reply : List Byte)
      (emitted : List (List Byte)),
      (∀ e ∈ entries, strlen e + 1 < 2 ^ 16) →
      pending net s = dir_frames P entries ++ encode P.bigEndian 2 0 →
      (pending net s).length < fuel →
      ∃ s1, readdir_loop P net fuel s reply emitted =
        some ⟨0, s1, emitted ++ entries.map c_str ++ [c_str (reply_after reply entries)]⟩ := by
  intro entries
  induction entries with
  | nil =>
    intro fuel s reply emitted _ hp hf
    have hp0 : pending net s = encode P.bigEndian 2 0 ++ ([] ++ []) := by simpa [dir_frames] using hp
    obtain ⟨s1, r1, _, p1⟩ := read_len_step net s 2 _ _ hr hp0 (encode_length _ _ _)
    obtain ⟨s2, r2, _, _⟩ := read_len_step net s1 0 _ _ hr p1 rfl
    have hd : decode P.bigEndian (encode P.bigEndian 2 0) = 0 := decode_encode _ _ _
    cases fuel with
    | zero => omega
    | succ fuel =>
      refine ⟨close s2, ?_⟩
      unfold readdir_loop
      simp only [r1, hd, r2]
      simp [store, reply_after]
  | cons e rest ih =>
    intro fuel s reply emitted hn hp hf
    have he : strlen e + 1 < 2 ^ 16 := hn e (List.mem_cons_self _ _)
    have hp0 : pending net s = encode P.bigEndian 2 (strlen e + 1) ++
        ((c_str e ++ [0]) ++ (dir_frames P rest ++ encode P.bigEndian 2 0)) := by
      simpa [dir_frames] using hp
    obtain ⟨s1, r1, _, p1⟩ := read_len_step net s 2 _ _ hr hp0 (encode_length _ _ _)
    obtain ⟨s2, r2, _, p2⟩ := read_len_step net s1 (strlen e + 1) _ _ hr p1 (by simp [strlen])
    have hd : decode P.bigEndian (encode P.bigEndian 2 (strlen e + 1)) = strlen e + 1 :=
      decode_encode_of_lt _ _ _ (by norm_num at he ⊢; exact he)
    cases fuel with
    | zero => omega
    | succ fuel =>
      have hf2 : (pending net s2).length < fuel := by
        rw [hp0] at hf
        rw [p2]
        simp [encode_length] at hf ⊢
        omega
      obtain ⟨s3, r3⟩ := ih fuel s2 (store reply (c_str e ++ [0]))
        (emitted ++ [c_str (store reply (c_str e ++ [0]))])
        (fun x hx => hn x (List.mem_cons_of_mem _ hx)) p2 hf2
      refine ⟨s3, ?_⟩
      unfold readdir_loop
      simp only [r1, hd, r2]
      rw [if_pos (by omega), r3]
      simp [c_str_store, reply_after]

/-- For every directory whose iteration on the server yields the names
`e1 .. en`, when no primitive fails `netfs_readdir` returns 0 after having passed
`n + 1` names to `filler`: `e1 .. en`, and then, for the terminating frame, the
last name once more (the empty name when `n = 0`). -/
theorem netfs_readdir_served (P : Platform) (h : Host) (net : Net) (path : List Byte)
    (entries : List (List Byte))
    (hc : net.connect_ok = true) (hw : ∀ k, net.write_ok k = true)
    (hr : ∀ k, net.read_ok k = true) (hpeer : net.peer = serve P h)
    (hsr : ∀ k, h.read_ok k = true) (hsw : ∀ k, h.write_ok k = true)
    (hlen : strlen path + 1 < 2 ^ 64)
    (hdir : h.opendir ([46] ++ c_str path) = some entries)
    (hnames : ∀ e ∈ entries, strlen e + 1 < 2 ^ 16) :
    (netfs_readdir P net path).map (fun r => (r.ret, r.out)) =
      some (0, entries.map c_str ++ [(entries.map c_str).getLastD []]) := by
  obtain ⟨s1, r1, e1, c1⟩ := send_path_step P net MSG_READDIR (connect_to net).2 path hw
  have hp : pending net s1 = dir_frames P entries ++ encode P.bigEndian 2 0 := by
    have hs : s1.sent = path_request P MSG_READDIR path := by rw [e1]; simp [connect_to, Sock.init]
    have hz : s1.consumed = 0 := by rw [c1]; rfl
    simp [pending, hs, hz, hpeer, handle_request_readdir P h path entries hsr hsw hlen hdir hnames]
  obtain ⟨s2, r2⟩ := readdir_loop_frames P net hr entries ((pending net s1).length + 1) s1 [] []
    hnames hp (Nat.lt_succ_self _)
  have hcn : (connect_to net).1 = true := hc
  unfold netfs_readdir
  have hnil : c_str [] = [] := rfl
  simp only [hcn, r1]
  simp [r2, c_str_reply_after, hnil]

/-- The client side of a `READ` whose response announces more bytes than follow:
`read_len` is called for the announced number and the handler returns -1. -/
theorem netfs_read_client_short (P : Platform) (net : Net) (path : List Byte) (size : Nat)
    (offset v : Int) (data : List Byte)
    (hc : net.connect_ok = true) (hw : ∀ k, net.write_ok k = true)
    (hr : ∀ k, net.read_ok k = true)
    (hresp : net.peer (read_request P path size offset) =
      encode P.bigEndian 8 (ofInt64 v) ++ data)
    (hv1 : -2 ^ 63 ≤ v) (hv2 : v < 2 ^ 63) (hshort : data.length < ofInt64 v) :
    (netfs_read P net path size offset).ret = -1 ∧
      (netfs_read P net path size offset).out = [] ∧
      Action.recv (ofInt64 v) ∈ (netfs_read P net path size offset).sock.trace := by
  have hV : toInt64 (decode P.bigEndian (encode P.bigEndian 8 (ofInt64 v))) = v :=
    int64_roundtrip _ _ hv1 hv2
  obtain ⟨s1, r1, e1, c1⟩ := send_path_step P net MSG_READ (connect_to net).2 path hw
  obtain ⟨s2, r2, e2, c2⟩ := write_len_step net s1 (encode P.bigEndian 8 (ofInt64 offset)) hw
  obtain ⟨s3, r3, e3, c3⟩ := write_len_step net s2 (encode P.bigEndian 8 size) hw
  have hs3 : s3.sent = read_request P path size offset := by
    rw [e3, e2, e1]
    simp [connect_to, Sock.init, read_request, path_request]
  have hc3 : s3.consumed = 0 := by rw [c3, c2, c1]; rfl
  have p3 : pending net s3 = encode P.bigEndian 8 (ofInt64 v) ++ data := by
    simp [pending, hs3, hc3, hresp]
  obtain ⟨s4, r4, e4, p4⟩ := read_len_step net s3 8 _ _ hr p3 (encode_length _ _ _)
  have r5 : read_len net s4 (ofInt64 v) =
      (none, { s4 with reads := s4.reads + 1,
                       trace := s4.trace ++ [Action.recv (ofInt64 v)] }) := by
    have hnot : ¬ ofInt64 v ≤ data.length := by omega
    simp [read_len, p4, hnot]
  have hcn : (connect_to net).1 = true := hc
  unfold netfs_read
  simp only [r1, r2, r3, r4, r5, hV, hcn]
  simp [close]

/-- For every file and every `READ` at an offset beyond its end, the server
announces the memory word `offset` slots before `st_size` and sends no content;
whenever that word is not 0, be it negative, the client asks `read_len` for a
positive number of bytes and returns -1. -/
theorem read_past_end_served (P : Platform) (h : Host) (net : Net) (path : List Byte)
    (size : Nat) (offset : Int) (content : List Byte)
    (hc : net.connect_ok = true) (hw : ∀ k, net.write_ok k = true)
    (hr : ∀ k, net.read_ok k = true) (hpeer : net.peer = serve P h)
    (hsr : ∀ k, h.read_ok k = true) (hsw : ∀ k, h.write_ok k = true)
    (hsf : h.sendfile_ok = true)
    (hlen : strlen path + 1 < 2 ^ 64) (hsize : size < 2 ^ 64)
    (hopen : h.open_file ([46] ++ c_str path) O_RDWR = some content)
    (hoff1 : (content.length : Int) < offset) (hoff2 : offset < 2 ^ 63)
    (hw1 : -2 ^ 63 ≤ h.around (-offset)) (hw2 : h.around (-offset) < 2 ^ 63)
    (hw0 : h.around (-offset) ≠ 0) :
    serve P h (read_request P path size offset) =
        encode P.bigEndian 8 (ofInt64 (h.around (-offset))) ∧
      0 < ofInt64 (h.around (-offset)) ∧
      (netfs_read P net path size offset).ret = -1 ∧
      Action.recv (ofInt64 (h.around (-offset))) ∈
        (netfs_read P net path size offset).sock.trace := by
  obtain ⟨st, hstat, _⟩ := stat_of_open_rdwr h _ content hopen
  have hserve : serve P h (read_request P path size offset) =
      encode P.bigEndian 8 (ofInt64 (h.around (-offset))) ++ [] := by
    rw [read_response_at_offset P h path size offset content st hsr hsw hsf hlen hsize
      (by omega) hoff2 hopen hstat]
    have hd : content.drop offset.toNat = [] := by
      apply List.drop_of_length_le
      omega
    rw [hd, List.take_nil]
  have hpos : 0 < ofInt64 (h.around (-offset)) := by
    unfold ofInt64
    have := Int.emod_emod_of_dvd (h.around (-offset)) (dvd_refl ((2 : Int) ^ 64))
    have h1 := Int.emod_nonneg (h.around (-offset)) (show (2 : Int) ^ 64 ≠ 0 by norm_num)
    have h2 : h.around (-offset) % 2 ^ 64 ≠ 0 := by
      intro h0
      have := Int.emod_emod_of_dvd (h.around (-offset)) (dvd_refl ((2 : Int) ^ 64))
      omega
    omega
  have hrun := netfs_read_client_short P net path size offset (h.around (-offset)) []
    hc hw hr (by rw [hpeer, hserve]) hw1 hw2 (by simpa using hpos)
  exact ⟨by simpa using hserve, hpos, hrun.1, hrun.2.2⟩

/-! ## Witnesses, counterexamples and failing inputs on the concrete scenario -/

set_option maxRecDepth 100000

/-- C7 (witness): the request of `OPEN` on "/" from a fresh connection. -/
theorem send_path_encoding_witness :
    demo_net.write_ok Sock.init.writes = true ∧ demo_net.write_ok (Sock.init.writes + 1) = true ∧
    (send_path linux_x86_64 demo_net MSG_OPEN Sock.init path_root).2.sent =
      [2, 0, 0, 0, 0, 0, 0, 0, 3, 0, 47, 0] :=
  ⟨rfl, rfl,
    ((send_path_encoding linux_x86_64 demo_net MSG_OPEN Sock.init path_root rfl rfl).2.1).trans
      (by decide)⟩

/-- C7 (counterexample): for `OPEN` on "/" the bytes written do not start with
the operation code as a 16-bit integer followed by the payload length as a
64-bit integer: the length comes first. -/
theorem send_path_header_order :
    (send_path linux_x86_64 demo_net MSG_OPEN Sock.init path_root).1 = 0 ∧
    (send_path linux_x86_64 demo_net MSG_OPEN Sock.init path_root).2.sent ≠
      encode linux_x86_64.bigEndian 2 MSG_OPEN ++
        encode linux_x86_64.bigEndian 8 (strlen path_root + 1) ++ (c_str path_root ++ [0]) := by
  decide

/-- C5 (witness): a write-only open is refused without any traffic, and a
read-only open of "/a.txt" against the server of the scenario succeeds. -/
theorem netfs_open_contract_witness :
    (O_WRONLY &&& O_ACCMODE ≠ O_RDONLY ∧
      (netfs_open linux_x86_64 demo_net path_a_txt O_WRONLY).ret < 0 ∧
      (netfs_open linux_x86_64 demo_net path_a_txt O_WRONLY).sock.trace = []) ∧
    ((netfs_open linux_x86_64 demo_net path_a_txt O_RDONLY).ret = 0 ↔
      decode linux_x86_64.bigEndian
        ((demo_net.peer (path_request linux_x86_64 MSG_OPEN path_a_txt)).take 2) = 1) :=
  ⟨⟨by decide, (netfs_open_contract linux_x86_64 demo_net path_a_txt O_WRONLY).1 (by decide)⟩,
    (netfs_open_contract linux_x86_64 demo_net path_a_txt O_RDONLY).2 (by decide) rfl rfl rfl rfl
      (by decide)⟩

/-- C4 (witness): attributes of "/" against the server of the scenario, whose
root directory has mode 0700. -/
theorem netfs_getattr_root_override_witness :
    (netfs_getattr linux_x86_64 demo_net path_root).ret = 0 ∧
    (netfs_getattr linux_x86_64 demo_net path_root).out =
      { linux_x86_64.stat_of_bytes
          ((demo_net.peer (path_request linux_x86_64 MSG_GETATTR path_root)).take
            linux_x86_64.sizeof_stat) with st_mode := S_IFDIR ||| 0o755 } :=
  ⟨by decide,
    (netfs_getattr_root_override linux_x86_64 demo_net path_root (by decide)).1 (by decide)⟩

/-- C6 (witness): `OPEN` of "/a.txt", readable and writable, is answered by 1. -/
theorem handle_request_open_flag_witness :
    strlen path_a_txt + 1 < 2 ^ 64 ∧
    serve linux_x86_64 demo_host (path_request linux_x86_64 MSG_OPEN path_a_txt) =
      encode linux_x86_64.bigEndian 2 (if true && true then 1 else 0) :=
  ⟨by decide,
    (handle_request_open_flag linux_x86_64 demo_host path_a_txt (fun _ => rfl) (fun _ => rfl)
      (by decide)).1 demo_attrs true true a_txt (by decide)⟩

/-- C6 (counterexample): the file "/ro" exists and is readable (not writable),
and the answer of the server to `OPEN` is the flag 0, not 1. -/
theorem open_flag_of_readable_file :
    demo_host.lookup ([46] ++ c_str path_ro) =
      some (Node.file { demo_attrs with st_mode := 0o100444 } true false a_txt) ∧
    demo_host.open_file ([46] ++ c_str path_ro) O_RDONLY = some a_txt ∧
    decode linux_x86_64.bigEndian
      (serve linux_x86_64 demo_host (path_request linux_x86_64 MSG_OPEN path_ro)) = 0 := by
  decide

/-- C1 (as amended): end-to-end `READ` of a whole file. For every file with
content `c` of length `n` that the server can open (read/write) and stat, with
`n` no more than one call of `sendfile` transfers (`n ≤ 0x7ffff000`), when no
transport primitive fails on either side, `netfs_read` with offset 0 and size
`n`, talking to the `MSG_READ` branch of `handle_request`, leaves exactly the `n`
bytes of `c` in the caller's buffer and returns `n`. -/
theorem netfs_read_whole_file (P : Platform) (h : Host) (net : Net) (path c : List Byte)
    (hc : net.connect_ok = true) (hw : ∀ k, net.write_ok k = true)
    (hr : ∀ k, net.read_ok k = true) (hpeer : net.peer = serve P h)
    (hsr : ∀ k, h.read_ok k = true) (hsw : ∀ k, h.write_ok k = true)
    (hsf : h.sendfile_ok = true)
    (hopen : h.open_file ([46] ++ c_str path) O_RDWR = some c)
    (hlen : strlen path + 1 < 2 ^ 64) (hn : c.length ≤ MAX_RW_COUNT) :
    (netfs_read P net path c.length 0).ret = (c.length : Int) ∧
      (netfs_read P net path c.length 0).out = c := by
  have hcap : MAX_RW_COUNT = 2147479552 := rfl
  obtain ⟨hret, hout, _⟩ :=
    read_whole_file P h net path c hc hw hr hpeer hsr hsw hsf hopen hlen hn
  exact ⟨hret.trans (toInt32_of_lt _ (by omega)), hout⟩

/-- C1 (witness): reading the four bytes of "/a.txt" in the scenario. -/
theorem netfs_read_whole_file_witness :
    demo_host.open_file ([46] ++ c_str path_a_txt) O_RDWR = some a_txt ∧
    a_txt.length ≤ MAX_RW_COUNT ∧
    (netfs_read linux_x86_64 demo_net path_a_txt a_txt.length 0).ret = 4 ∧
    (netfs_read linux_x86_64 demo_net path_a_txt a_txt.length 0).out = a_txt :=
  ⟨by decide, by decide,
    netfs_read_whole_file linux_x86_64 demo_host demo_net path_a_txt a_txt rfl (fun _ => rfl)
      (fun _ => rfl) rfl (fun _ => rfl) (fun _ => rfl) rfl (by decide) (by decide) (by decide)⟩

/-- C1 (counterexample): for a file of 2147479553 bytes that the server can open
and stat, with no primitive failing, the server answers a `READ` with offset 0
and size 2147479553 by announcing 2147479553 bytes and sending the first
2147479552 only, which is all its one call of `sendfile` transfers; so
`netfs_read` does not both return 2147479553 and leave the content of the file in
the buffer. -/
theorem netfs_read_beyond_one_sendfile :
    big_host.open_file ([46] ++ c_str path_big) O_RDWR = some big_file ∧
    big_file.length = 2147479553 ∧
    serve linux_x86_64 big_host (read_request linux_x86_64 path_big 2147479553 0) =
      encode linux_x86_64.bigEndian 8 2147479553 ++ big_file.take 2147479552 ∧
    (big_file.take 2147479552).length = 2147479552 ∧
    ¬ ((netfs_read linux_x86_64 big_net path_big 2147479553 0).ret = 2147479553 ∧
        (netfs_read linux_x86_64 big_net path_big 2147479553 0).out = big_file) := by
  have hopen : big_host.open_file ([46] ++ c_str path_big) O_RDWR = some big_file := by
    have hl : big_host.lookup ([46] ++ c_str path_big) =
        some (Node.file demo_attrs true true big_file) := by
      simp [big_host, path_big, c_str]
    rw [open_rdwr_file big_host _ demo_attrs true true big_file hl]
    rfl
  have hlen : big_file.length = 2147479553 := List.length_replicate _ _
  have htake : (big_file.take 2147479552).length = 2147479552 := by
    rw [List.length_take, hlen]
    rfl
  have hmin : min 2147479553 MAX_RW_COUNT = 2147479552 := by decide
  have hof : ofInt64 ((big_file.length : Nat) : Int) = 2147479553 := by
    rw [hlen]
    decide
  have hserve : serve linux_x86_64 big_host (read_request linux_x86_64 path_big 2147479553 0) =
      encode linux_x86_64.bigEndian 8 2147479553 ++ big_file.take 2147479552 := by
    rw [read_response_at_zero linux_x86_64 big_host path_big 2147479553 big_file (fun _ => rfl)
      (fun _ => rfl) rfl (by decide) (by decide) hopen, hmin, hof]
  have hv : ofInt64 (2147479553 : Int) = 2147479553 := by decide
  have hrun := netfs_read_client_short linux_x86_64 big_net path_big 2147479553 0 2147479553
    (big_file.take 2147479552) rfl (fun _ => rfl) (fun _ => rfl)
    (by rw [hv]; exact hserve) (by decide) (by decide) (by rw [hv, htake]; decide)
  refine ⟨hopen, hlen, hserve, htake, ?_⟩
  rintro ⟨hret, _⟩
  rw [hrun.1] at hret
  exact absurd hret (by decide)

/-- C2 (failing input): `READ` of "/a.txt" (4 bytes) with offset 0 and size 2.
The server announces `available_length = 4` and then puts only the 2 bytes "te"
on the connection; the client, which goes on to receive 4 bytes, fails. -/
theorem read_response_shorter_than_announced :
    serve linux_x86_64 demo_host (read_request linux_x86_64 path_a_txt 2 0) =
      encode linux_x86_64.bigEndian 8 4 ++ [116, 101] ∧
    (netfs_read linux_x86_64 demo_net path_a_txt 2 0).ret = -1 := by
  decide

/-- C3 (failing input): listing "/" in the scenario, where the iteration of the
directory on the server yields the 4 names ".", "..", "a.txt", "sub". The server
sends 4 frames and the zero-length frame; `netfs_readdir` returns 0 after having
passed 5 names to `filler`: the 4 names and, for the terminating frame, the
content of `reply` once more ("sub"). -/
theorem netfs_readdir_emits_for_terminator :
    demo_host.opendir ([46] ++ c_str path_root) =
      some [[46], [46, 46], [97, 46, 116, 120, 116], [115, 117, 98]] ∧
    (netfs_readdir linux_x86_64 demo_net path_root).map (fun r => (r.ret, r.out)) =
      some (0, [[46], [46, 46], [97, 46, 116, 120, 116], [115, 117, 98], [115, 117, 98]]) := by
  decide

/-- C8 (failing input): `READ` of "/a.txt" (4 bytes) with offset 1 and size 3.
The value sent as `available_length` is the word one slot before `st_size` in
`statbuf` (`st_rdev`, which is 0), not the file size minus the offset, 3. -/
theorem available_length_at_offset_one :
    demo_host.stat ([46] ++ c_str path_a_txt) = some { demo_attrs with st_size := 4 } ∧
    toInt64 (decode linux_x86_64.bigEndian
      ((serve linux_x86_64 demo_host (read_request linux_x86_64 path_a_txt 3 1)).take 8)) = 0 ∧
    (serve linux_x86_64 demo_host (read_request linux_x86_64 path_a_txt 3 1)).drop 8 =
      [101, 115, 116] := by
  decide

/-- C9 (failing inputs): `READ` of "/a.txt" (4 bytes) past its end, with size 1.
At offset 5 the server sends the word 5 slots before `st_size` (`st_ino`, which
is 7), a positive `available_length`, and no content; the client calls
`read_len` for 7 bytes and returns -1. At offset 7 the word designated lies
outside `statbuf`; in a process where it holds -3, which is the file size minus
the offset, the server sends -3 and no content, and the client calls `read_len`
for 2^64 - 3 bytes and returns -1. -/
theorem read_past_end_client_receives :
    (serve linux_x86_64 demo_host (read_request linux_x86_64 path_a_txt 1 5) =
        encode linux_x86_64.bigEndian 8 7 ∧
      (netfs_read linux_x86_64 demo_net path_a_txt 1 5).ret = -1 ∧
      Action.recv 7 ∈ (netfs_read linux_x86_64 demo_net path_a_txt 1 5).sock.trace) ∧
    (serve linux_x86_64 demo_host_stale (read_request linux_x86_64 path_a_txt 1 7) =
        encode linux_x86_64.bigEndian 8 (ofInt64 (4 - 7)) ∧
      (netfs_read linux_x86_64 demo_net_stale path_a_txt 1 7).ret = -1 ∧
      Action.recv 18446744073709551613 ∈
        (netfs_read linux_x86_64 demo_net_stale path_a_txt 1 7).sock.trace) := by
  decide

/-- C10 (failing inputs): with every primitive succeeding, `netfs_getattr`
returns 0 without having closed its connection; and when the connection is
established and the first write fails, each of the four handlers returns a
negative value after having closed the connection twice (once in `send_path`,
once in the handler). -/
theorem client_close_discipline_broken :
    ((netfs_getattr linux_x86_64 demo_net path_a_txt).ret = 0 ∧
      (netfs_getattr linux_x86_64 demo_net path_a_txt).sock.closes = 0) ∧
    ((netfs_getattr linux_x86_64 broken_net path_a_txt).ret = -1 ∧
      (netfs_getattr linux_x86_64 broken_net path_a_txt).sock.closes = 2) ∧
    (netfs_readdir linux_x86_64 broken_net path_root).map (fun r => (r.ret, r.sock.closes)) =
      some (-1, 2) ∧
    ((netfs_open linux_x86_64 broken_net path_a_txt O_RDONLY).ret = -1 ∧
      (netfs_open linux_x86_64 broken_net path_a_txt O_RDONLY).sock.closes = 2) ∧
    ((netfs_read linux_x86_64 broken_net path_a_txt 4 0).ret = -1 ∧
      (netfs_read linux_x86_64 broken_net path_a_txt 4 0).sock.closes = 2) := by
  decide

end NetFS
